import Mathlib

/-!
Verification of the SemanticJSON hybrid reconciler (src/semanticjson/compare.py).

The core function `hybrid_json_compare` loads two JSON documents, computes a
structural diff via the external DeepDiff collaborator, and then reconciles the
entries of the diff category named values_changed against a semantic-similarity
collaborator (sentence-transformers embeddings plus cosine similarity):
entries whose old and new values are both strings and whose similarity reaches
the threshold are removed from the structural diff and recorded as Equivalent
in a semantic diff; sub-threshold string pairs are recorded as Changed in the
semantic diff while also staying in the structural diff.

The embedding below models the reconciliation core.  File loading / JSON
parsing and the two collaborators (DeepDiff and the embedding model) are
external to the repository, so they enter as parameters: the structural diff
is an input value, and the embedding model together with cosine similarity is
collapsed into a similarity function on string pairs, `sim : String → String → ℚ`
(rationals stand in for Python floats; only order comparisons against the
threshold matter).  A second variant threads an `Except` monad through the
similarity calls to model a raising embedding collaborator.
-/

/-- A parsed JSON value: mapping, array, string, number, boolean or null.
Numbers are idealised as rationals; the reconciler only ever asks whether a
value is a string (the isinstance checks on lines 46 of compare.py). -/
inductive JsonValue where
  | obj : List (String × JsonValue) → JsonValue
  | arr : List JsonValue → JsonValue
  | str : String → JsonValue
  | num : ℚ → JsonValue
  | bool : Bool → JsonValue
  | null : JsonValue

/-- One entry of the values_changed category of a DeepDiff result: a Python
dict from which compare.py reads the keys old_value and new_value with
changes.get, which yields None when the key is absent.  The Option models
exactly that access: `none` is a missing key / None. -/
structure ValueChangeDetail where
  old_value : Option JsonValue
  new_value : Option JsonValue

/-- One entry of the semantic diff built by hybrid_json_compare (lines 54-66
of compare.py): a status string (the code stores the literal strings
written there), the computed similarity, and the two string values. -/
structure SemanticEntry where
  status : String
  similarity : ℚ
  old_value : String
  new_value : String
deriving DecidableEq

/-- A DeepDiff result as compare.py consumes it: the values_changed category
(a dict from opaque path strings to change details, `none` when the key is
absent) plus all other categories, which the reconciler never inspects and
passes through untouched; their exact content is irrelevant, so they are kept
as an uninterpreted association list from category name to path list. -/
structure StructuralDiff where
  values_changed : Option (List (String × ValueChangeDetail))
  otherCategories : List (String × List String)

/-- The dict returned by hybrid_json_compare (lines 72-75 of compare.py). -/
structure ReconciledResult where
  structural_diff : StructuralDiff
  semantic_diff : List (String × SemanticEntry)

/-- The both-strings gate of compare.py line 46:
`isinstance(old_val, str) and isinstance(new_val, str)` where old_val and
new_val were read with changes.get.  Returns the two strings when the gate
passes, `none` otherwise (including when a key is missing, since
isinstance(None, str) is false). -/
def stringPair (changes : ValueChangeDetail) : Option (String × String) :=
  match changes.old_value, changes.new_value with
  | some (JsonValue.str oldV), some (JsonValue.str newV) => some (oldV, newV)
  | _, _ => none

/-- The loop of compare.py lines 41-66.  `entries` is the snapshot
`list(structural_diff["values_changed"].items())` still to be processed,
`vc` is the live values_changed dict (from which `del` removes keys), and
`sem` is the semantic_diff dict built so far.  Dicts are association lists;
deleting the key `path` keeps exactly the entries whose key differs. -/
def reconcileLoop (sim : String → String → ℚ) (threshold : ℚ) :
    List (String × ValueChangeDetail) → List (String × ValueChangeDetail) →
    List (String × SemanticEntry) →
    List (String × ValueChangeDetail) × List (String × SemanticEntry)
  | [], vc, sem => (vc, sem)
  | (path, changes) :: rest, vc, sem =>
    match stringPair changes with
    | some (oldV, newV) =>
      let similarity := sim oldV newV
      if similarity ≥ threshold then
        reconcileLoop sim threshold rest
          (vc.filter fun e => decide (e.1 ≠ path))
          (sem ++ [(path, ⟨"Equivalent (semantically)", similarity, oldV, newV⟩)])
      else
        reconcileLoop sim threshold rest vc
          (sem ++ [(path, ⟨"Changed (semantically different)", similarity, oldV, newV⟩)])
    | none => reconcileLoop sim threshold rest vc sem

/-- compare.py lines 29-75, from the point where the structural diff and the
similarity collaborator are in hand: if values_changed is absent the diff is
returned unchanged with an empty semantic diff; otherwise the loop runs over a
snapshot of the category, and afterwards the category key is deleted when the
dict became empty (lines 68-70). -/
def hybrid_json_compare (sim : String → String → ℚ) (threshold : ℚ)
    (structural_diff : StructuralDiff) : ReconciledResult :=
  match structural_diff.values_changed with
  | none => ⟨structural_diff, []⟩
  | some vc =>
    let res := reconcileLoop sim threshold vc vc []
    if res.1.isEmpty then
      ⟨{ structural_diff with values_changed := none }, res.2⟩
    else
      ⟨{ structural_diff with values_changed := some res.1 }, res.2⟩

/-- The empty DeepDiff result (DeepDiff of equal inputs): no categories. -/
def emptyStructuralDiff : StructuralDiff := ⟨none, []⟩

/-- The full pipeline of hybrid_json_compare on already-parsed inputs, with
the structural-diff collaborator (DeepDiff, line 30 of compare.py) passed as
the function `diffFn`: diff first, then reconcile. -/
def reconcile (diffFn : JsonValue → JsonValue → StructuralDiff)
    (sim : String → String → ℚ) (threshold : ℚ) (a b : JsonValue) :
    ReconciledResult :=
  hybrid_json_compare sim threshold (diffFn a b)

/-- The loop of compare.py lines 41-66 with a raising embedding collaborator:
`simE` returns either the similarity of a string pair or the exception raised
by model.encode / cosine similarity (lines 47-49).  A raised exception stops
the loop immediately and propagates, exactly as a Python exception unwinds
out of the for loop. -/
def reconcileLoopE {ε : Type} (simE : String → String → Except ε ℚ) (threshold : ℚ) :
    List (String × ValueChangeDetail) → List (String × ValueChangeDetail) →
    List (String × SemanticEntry) →
    Except ε (List (String × ValueChangeDetail) × List (String × SemanticEntry))
  | [], vc, sem => Except.ok (vc, sem)
  | (path, changes) :: rest, vc, sem =>
    match stringPair changes with
    | some (oldV, newV) =>
      match simE oldV newV with
      | Except.error e => Except.error e
      | Except.ok similarity =>
        if similarity ≥ threshold then
          reconcileLoopE simE threshold rest
            (vc.filter fun x => decide (x.1 ≠ path))
            (sem ++ [(path, ⟨"Equivalent (semantically)", similarity, oldV, newV⟩)])
        else
          reconcileLoopE simE threshold rest vc
            (sem ++ [(path, ⟨"Changed (semantically different)", similarity, oldV, newV⟩)])
    | none => reconcileLoopE simE threshold rest vc sem

/-- hybrid_json_compare with a raising embedding collaborator: an exception
raised inside the loop propagates out of the function uncaught (there is no
try/except in compare.py), so the caller receives no result at all. -/
def hybrid_json_compare_E {ε : Type} (simE : String → String → Except ε ℚ)
    (threshold : ℚ) (structural_diff : StructuralDiff) :
    Except ε ReconciledResult :=
  match structural_diff.values_changed with
  | none => Except.ok ⟨structural_diff, []⟩
  | some vc =>
    match reconcileLoopE simE threshold vc vc [] with
    | Except.error e => Except.error e
    | Except.ok res =>
      Except.ok
        (if res.1.isEmpty then
          ⟨{ structural_diff with values_changed := none }, res.2⟩
        else
          ⟨{ structural_diff with values_changed := some res.1 }, res.2⟩)

/-- Whether one values_changed entry passes the both-strings gate with a
similarity reaching the threshold: exactly the entries deleted from the live
dict on line 53 of compare.py. -/
def isEquivalentEntry (sim : String → String → ℚ) (threshold : ℚ)
    (e : String × ValueChangeDetail) : Bool :=
  match stringPair e.2 with
  | some (oldV, newV) => decide (sim oldV newV ≥ threshold)
  | none => false

/-- The keys the loop deletes from the live values_changed dict. -/
def equivKeys (sim : String → String → ℚ) (threshold : ℚ)
    (entries : List (String × ValueChangeDetail)) : List String :=
  (entries.filter (isEquivalentEntry sim threshold)).map Prod.fst

/-- The semantic-diff entry one values_changed entry gives rise to:
`none` for entries failing the both-strings gate, otherwise the Equivalent or
Changed record of lines 54-66 of compare.py. -/
def semEntryOf (sim : String → String → ℚ) (threshold : ℚ)
    (e : String × ValueChangeDetail) : Option (String × SemanticEntry) :=
  match stringPair e.2 with
  | some (oldV, newV) =>
    if sim oldV newV ≥ threshold then
      some (e.1, ⟨"Equivalent (semantically)", sim oldV newV, oldV, newV⟩)
    else
      some (e.1, ⟨"Changed (semantically different)", sim oldV newV, oldV, newV⟩)
  | none => none

/-- The string pairs handed to the embedding model by the loop: one pair per
values_changed entry that passes the both-strings gate (lines 47-48 of
compare.py); entries failing the gate trigger no embedding computation. -/
def embeddingCalls (entries : List (String × ValueChangeDetail)) :
    List (String × String) :=
  entries.filterMap fun e => stringPair e.2

theorem reconcileLoop_snd (sim : String → String → ℚ) (threshold : ℚ)
    (entries vc : List (String × ValueChangeDetail))
    (sem : List (String × SemanticEntry)) :
    (reconcileLoop sim threshold entries vc sem).2 =
      sem ++ entries.filterMap (semEntryOf sim threshold) := by
  induction entries generalizing vc sem with
  | nil => simp [reconcileLoop]
  | cons hd rest ih =>
    obtain ⟨path, changes⟩ := hd
    cases hsp : stringPair changes with
    | none => simp [reconcileLoop, hsp, semEntryOf, ih]
    | some pr =>
      obtain ⟨oldV, newV⟩ := pr
      by_cases hge : sim oldV newV ≥ threshold
      · simp [reconcileLoop, hsp, hge, semEntryOf, ih]
      · simp [reconcileLoop, hsp, hge, semEntryOf, ih]

theorem reconcileLoop_fst (sim : String → String → ℚ) (threshold : ℚ)
    (entries vc : List (String × ValueChangeDetail))
    (sem : List (String × SemanticEntry)) :
    (reconcileLoop sim threshold entries vc sem).1 =
      vc.filter fun x => decide (x.1 ∉ equivKeys sim threshold entries) := by
  induction entries generalizing vc sem with
  | nil => simp [reconcileLoop, equivKeys]
  | cons hd rest ih =>
    obtain ⟨path, changes⟩ := hd
    cases hsp : stringPair changes with
    | none =>
      rw [show reconcileLoop sim threshold ((path, changes) :: rest) vc sem =
            reconcileLoop sim threshold rest vc sem by simp [reconcileLoop, hsp]]
      rw [ih]
      apply List.filter_congr
      intro a _
      simp [equivKeys, List.filter_cons, isEquivalentEntry, hsp]
    | some pr =>
      obtain ⟨oldV, newV⟩ := pr
      by_cases hge : sim oldV newV ≥ threshold
      · rw [show reconcileLoop sim threshold ((path, changes) :: rest) vc sem =
              reconcileLoop sim threshold rest
                (vc.filter fun x => decide (x.1 ≠ path))
                (sem ++ [(path, ⟨"Equivalent (semantically)", sim oldV newV, oldV, newV⟩)]) by
              simp [reconcileLoop, hsp, hge]]
        rw [ih, List.filter_filter]
        apply List.filter_congr
        intro a _
        have hk : equivKeys sim threshold ((path, changes) :: rest) =
            path :: equivKeys sim threshold rest := by
          simp [equivKeys, List.filter_cons, isEquivalentEntry, hsp, hge]
        rw [hk]
        by_cases hap : a.1 = path
        · simp [hap]
        · simp [hap]
      · rw [show reconcileLoop sim threshold ((path, changes) :: rest) vc sem =
              reconcileLoop sim threshold rest vc
                (sem ++ [(path, ⟨"Changed (semantically different)", sim oldV newV, oldV, newV⟩)]) by
              simp [reconcileLoop, hsp, hge]]
        rw [ih]
        apply List.filter_congr
        intro a _
        have hk : equivKeys sim threshold ((path, changes) :: rest) =
            equivKeys sim threshold rest := by
          simp [equivKeys, List.filter_cons, isEquivalentEntry, hsp, hge]
        rw [hk]

/-- Closed form of hybrid_json_compare when the values_changed category is
present: the surviving entries are those whose key is not deleted, and the
semantic diff is read off entry by entry. -/
theorem hybrid_json_compare_eq (sim : String → String → ℚ) (threshold : ℚ)
    (sd : StructuralDiff) (vc : List (String × ValueChangeDetail))
    (hvc : sd.values_changed = some vc) :
    hybrid_json_compare sim threshold sd =
      if (vc.filter fun x => decide (x.1 ∉ equivKeys sim threshold vc)).isEmpty then
        ⟨⟨none, sd.otherCategories⟩, vc.filterMap (semEntryOf sim threshold)⟩
      else
        ⟨⟨some (vc.filter fun x => decide (x.1 ∉ equivKeys sim threshold vc)),
            sd.otherCategories⟩,
          vc.filterMap (semEntryOf sim threshold)⟩ := by
  unfold hybrid_json_compare
  rw [hvc]
  simp [reconcileLoop_fst, reconcileLoop_snd]
  rw [reconcileLoop_fst]

theorem lookup_eq_none_of_not_mem_keys {β : Type} (p : String)
    (l : List (String × β)) (h : p ∉ l.map Prod.fst) : List.lookup p l = none := by
  induction l with
  | nil => rfl
  | cons e rest ih =>
    obtain ⟨k, v⟩ := e
    simp only [List.map_cons, List.mem_cons, not_or] at h
    have hbeq : (p == k) = false := beq_eq_false_iff_ne.mpr h.1
    simp [List.lookup, hbeq, ih h.2]

theorem lookup_eq_some_of_mem_of_nodupKeys {β : Type} (p : String) (b : β)
    (l : List (String × β)) (hnd : (l.map Prod.fst).Nodup) (hmem : (p, b) ∈ l) :
    List.lookup p l = some b := by
  induction l with
  | nil => cases hmem
  | cons e rest ih =>
    obtain ⟨k, v⟩ := e
    simp only [List.map_cons, List.nodup_cons] at hnd
    rcases List.mem_cons.mp hmem with heq | hmem2
    · injection heq with h1 h2
      subst h1; subst h2
      simp [List.lookup]
    · have hk : p ≠ k := by
        intro hpk
        subst hpk
        exact hnd.1 (List.mem_map.mpr ⟨(p, b), hmem2, rfl⟩)
      have hbeq : (p == k) = false := beq_eq_false_iff_ne.mpr hk
      simp [List.lookup, hbeq, ih hnd.2 hmem2]

theorem value_eq_of_nodupKeys {β : Type} {p : String} {b1 b2 : β}
    {l : List (String × β)} (hnd : (l.map Prod.fst).Nodup)
    (h1 : (p, b1) ∈ l) (h2 : (p, b2) ∈ l) : b1 = b2 := by
  have e1 := lookup_eq_some_of_mem_of_nodupKeys p b1 l hnd h1
  have e2 := lookup_eq_some_of_mem_of_nodupKeys p b2 l hnd h2
  rw [e1] at e2
  injection e2

theorem semEntryOf_fst (sim : String → String → ℚ) (threshold : ℚ)
    (e : String × ValueChangeDetail) (pe : String × SemanticEntry)
    (h : semEntryOf sim threshold e = some pe) : pe.1 = e.1 := by
  cases hsp : stringPair e.2 with
  | none => simp [semEntryOf, hsp] at h
  | some pr =>
    obtain ⟨o, n⟩ := pr
    simp only [semEntryOf, hsp] at h
    split_ifs at h <;> (injection h with h1; subst h1; rfl)

theorem semEntryOf_some_gate (sim : String → String → ℚ) (threshold : ℚ)
    (e : String × ValueChangeDetail) (pe : String × SemanticEntry)
    (h : semEntryOf sim threshold e = some pe) :
    ∃ o n, stringPair e.2 = some (o, n) := by
  cases hsp : stringPair e.2 with
  | none => simp [semEntryOf, hsp] at h
  | some pr => exact ⟨pr.1, pr.2, by simp [hsp]⟩

theorem semEntryOf_equiv (sim : String → String → ℚ) (threshold : ℚ)
    (p : String) (d : ValueChangeDetail) (o n : String)
    (hsp : stringPair d = some (o, n)) (hge : sim o n ≥ threshold) :
    semEntryOf sim threshold (p, d) =
      some (p, ⟨"Equivalent (semantically)", sim o n, o, n⟩) := by
  simp [semEntryOf, hsp, hge]

theorem semEntryOf_changed (sim : String → String → ℚ) (threshold : ℚ)
    (p : String) (d : ValueChangeDetail) (o n : String)
    (hsp : stringPair d = some (o, n)) (hlt : ¬ sim o n ≥ threshold) :
    semEntryOf sim threshold (p, d) =
      some (p, ⟨"Changed (semantically different)", sim o n, o, n⟩) := by
  simp [semEntryOf, hsp, hlt]

theorem semKeys_sublist (sim : String → String → ℚ) (threshold : ℚ)
    (l : List (String × ValueChangeDetail)) :
    ((l.filterMap (semEntryOf sim threshold)).map Prod.fst).Sublist
      (l.map Prod.fst) := by
  induction l with
  | nil => simp
  | cons e rest ih =>
    cases hse : semEntryOf sim threshold e with
    | none =>
      rw [List.filterMap_cons, hse]
      exact ih.trans (List.sublist_cons_self e.1 (rest.map Prod.fst))
    | some pe =>
      have hfst : pe.1 = e.1 := semEntryOf_fst sim threshold e pe hse
      rw [List.filterMap_cons, hse, List.map_cons, List.map_cons, hfst]
      exact ih.cons₂ e.1

theorem isEquivalentEntry_eq_true (sim : String → String → ℚ) (threshold : ℚ)
    (p : String) (d : ValueChangeDetail) (o n : String)
    (hsp : stringPair d = some (o, n)) :
    isEquivalentEntry sim threshold (p, d) = decide (sim o n ≥ threshold) := by
  simp [isEquivalentEntry, hsp]

theorem isEquivalentEntry_eq_false (sim : String → String → ℚ) (threshold : ℚ)
    (p : String) (d : ValueChangeDetail) (hsp : stringPair d = none) :
    isEquivalentEntry sim threshold (p, d) = false := by
  simp [isEquivalentEntry, hsp]

theorem mem_equivKeys (sim : String → String → ℚ) (threshold : ℚ)
    (entries : List (String × ValueChangeDetail)) (p : String) :
    p ∈ equivKeys sim threshold entries ↔
      ∃ d, (p, d) ∈ entries ∧ isEquivalentEntry sim threshold (p, d) = true := by
  simp only [equivKeys, List.mem_map, List.mem_filter]
  constructor
  · rintro ⟨⟨q, d⟩, ⟨hmem, heq⟩, hfst⟩
    subst hfst
    exact ⟨d, hmem, heq⟩
  · rintro ⟨d, hmem, heq⟩
    exact ⟨(p, d), ⟨hmem, heq⟩, rfl⟩

theorem stringPair_eq_none_of_missing (d : ValueChangeDetail)
    (h : d.old_value = none ∨ d.new_value = none) : stringPair d = none := by
  unfold stringPair
  rcases h with h | h
  · rw [h]
  · rw [h]
    cases hov : d.old_value with
    | none => rfl
    | some jv => cases jv <;> rfl

theorem hybrid_semantic_eq (sim : String → String → ℚ) (threshold : ℚ)
    (sd : StructuralDiff) (vc : List (String × ValueChangeDetail))
    (hvc : sd.values_changed = some vc) :
    (hybrid_json_compare sim threshold sd).semantic_diff =
      vc.filterMap (semEntryOf sim threshold) := by
  rw [hybrid_json_compare_eq sim threshold sd vc hvc]
  split <;> rfl

theorem hybrid_other_eq (sim : String → String → ℚ) (threshold : ℚ)
    (sd : StructuralDiff) :
    (hybrid_json_compare sim threshold sd).structural_diff.otherCategories =
      sd.otherCategories := by
  cases h : sd.values_changed with
  | none => unfold hybrid_json_compare; rw [h]
  | some vc =>
    rw [hybrid_json_compare_eq sim threshold sd vc h]
    split <;> rfl

theorem hybrid_vc_of_mem (sim : String → String → ℚ) (threshold : ℚ)
    (sd : StructuralDiff) (vc : List (String × ValueChangeDetail))
    (hvc : sd.values_changed = some vc) (x : String × ValueChangeDetail)
    (hx : x ∈ vc.filter fun y => decide (y.1 ∉ equivKeys sim threshold vc)) :
    (hybrid_json_compare sim threshold sd).structural_diff.values_changed =
      some (vc.filter fun y => decide (y.1 ∉ equivKeys sim threshold vc)) := by
  rw [hybrid_json_compare_eq sim threshold sd vc hvc]
  have hne : ¬ (vc.filter fun y => decide (y.1 ∉ equivKeys sim threshold vc)).isEmpty = true := by
    intro hemp
    cases hfe : vc.filter fun y => decide (y.1 ∉ equivKeys sim threshold vc) with
    | nil => rw [hfe] at hx; cases hx
    | cons a l => rw [hfe] at hemp; cases hemp
  rw [if_neg hne]

/-- Per-entry analysis, Equivalent case: a values_changed entry whose both
values are strings and whose similarity reaches the threshold is deleted from
the returned values_changed dict and recorded as Equivalent in the semantic
diff with the computed similarity and the original values. -/
theorem reconciled_equiv_case (sim : String → String → ℚ) (threshold : ℚ)
    (sd : StructuralDiff) (vc : List (String × ValueChangeDetail))
    (path : String) (detail : ValueChangeDetail) (oldV newV : String)
    (hvc : sd.values_changed = some vc) (hnd : (vc.map Prod.fst).Nodup)
    (hmem : (path, detail) ∈ vc)
    (hsp : stringPair detail = some (oldV, newV))
    (hge : sim oldV newV ≥ threshold) :
    (∀ vc2, (hybrid_json_compare sim threshold sd).structural_diff.values_changed = some vc2 →
        path ∉ vc2.map Prod.fst)
    ∧ List.lookup path (hybrid_json_compare sim threshold sd).semantic_diff =
        some ⟨"Equivalent (semantically)", sim oldV newV, oldV, newV⟩ := by
  have hpek : path ∈ equivKeys sim threshold vc := by
    rw [mem_equivKeys]
    refine ⟨detail, hmem, ?_⟩
    rw [isEquivalentEntry_eq_true sim threshold path detail oldV newV hsp]
    exact decide_eq_true hge
  constructor
  · intro vc2 hvc2
    rw [hybrid_json_compare_eq sim threshold sd vc hvc] at hvc2
    by_cases hemp : (vc.filter fun x => decide (x.1 ∉ equivKeys sim threshold vc)).isEmpty = true
    · rw [if_pos hemp] at hvc2
      simp at hvc2
    · rw [if_neg hemp] at hvc2
      simp only at hvc2
      injection hvc2 with hvc3
      subst hvc3
      intro hmm
      obtain ⟨x, hxmem, hxfst⟩ := List.mem_map.mp hmm
      have hxf := (List.mem_filter.mp hxmem).2
      rw [decide_eq_true_eq] at hxf
      apply hxf
      rw [hxfst]
      exact hpek
  · rw [hybrid_semantic_eq sim threshold sd vc hvc]
    apply lookup_eq_some_of_mem_of_nodupKeys
    · exact (semKeys_sublist sim threshold vc).nodup hnd
    · exact List.mem_filterMap.mpr
        ⟨(path, detail), hmem, semEntryOf_equiv sim threshold path detail oldV newV hsp hge⟩

/-- Per-entry analysis, Changed case: a values_changed entry whose both values
are strings and whose similarity is below the threshold stays in the returned
values_changed dict unchanged and is also recorded as Changed in the semantic
diff with the computed similarity and the original values. -/
theorem reconciled_changed_case (sim : String → String → ℚ) (threshold : ℚ)
    (sd : StructuralDiff) (vc : List (String × ValueChangeDetail))
    (path : String) (detail : ValueChangeDetail) (oldV newV : String)
    (hvc : sd.values_changed = some vc) (hnd : (vc.map Prod.fst).Nodup)
    (hmem : (path, detail) ∈ vc)
    (hsp : stringPair detail = some (oldV, newV))
    (hlt : ¬ sim oldV newV ≥ threshold) :
    (∃ vc2, (hybrid_json_compare sim threshold sd).structural_diff.values_changed = some vc2
        ∧ (path, detail) ∈ vc2)
    ∧ List.lookup path (hybrid_json_compare sim threshold sd).semantic_diff =
        some ⟨"Changed (semantically different)", sim oldV newV, oldV, newV⟩ := by
  have hnek : path ∉ equivKeys sim threshold vc := by
    rw [mem_equivKeys]
    rintro ⟨d2, hmem2, heq⟩
    have hd : d2 = detail := value_eq_of_nodupKeys hnd hmem2 hmem
    subst hd
    rw [isEquivalentEntry_eq_true sim threshold path d2 oldV newV hsp] at heq
    exact hlt (of_decide_eq_true heq)
  have hsurv : (path, detail) ∈ vc.filter fun x => decide (x.1 ∉ equivKeys sim threshold vc) :=
    List.mem_filter.mpr ⟨hmem, decide_eq_true hnek⟩
  constructor
  · exact ⟨_, hybrid_vc_of_mem sim threshold sd vc hvc _ hsurv, hsurv⟩
  · rw [hybrid_semantic_eq sim threshold sd vc hvc]
    apply lookup_eq_some_of_mem_of_nodupKeys
    · exact (semKeys_sublist sim threshold vc).nodup hnd
    · exact List.mem_filterMap.mpr
        ⟨(path, detail), hmem, semEntryOf_changed sim threshold path detail oldV newV hsp hlt⟩

/-- Per-entry analysis, gate-failing case: a values_changed entry at least one
of whose values is not a string (including a missing key) stays untouched in
the returned values_changed dict and gets no semantic-diff entry. -/
theorem reconciled_nonstring_case (sim : String → String → ℚ) (threshold : ℚ)
    (sd : StructuralDiff) (vc : List (String × ValueChangeDetail))
    (path : String) (detail : ValueChangeDetail)
    (hvc : sd.values_changed = some vc) (hnd : (vc.map Prod.fst).Nodup)
    (hmem : (path, detail) ∈ vc)
    (hsp : stringPair detail = none) :
    (∃ vc2, (hybrid_json_compare sim threshold sd).structural_diff.values_changed = some vc2
        ∧ (path, detail) ∈ vc2)
    ∧ List.lookup path (hybrid_json_compare sim threshold sd).semantic_diff = none := by
  have hnek : path ∉ equivKeys sim threshold vc := by
    rw [mem_equivKeys]
    rintro ⟨d2, hmem2, heq⟩
    have hd : d2 = detail := value_eq_of_nodupKeys hnd hmem2 hmem
    subst hd
    rw [isEquivalentEntry_eq_false sim threshold path d2 hsp] at heq
    cases heq
  have hsurv : (path, detail) ∈ vc.filter fun x => decide (x.1 ∉ equivKeys sim threshold vc) :=
    List.mem_filter.mpr ⟨hmem, decide_eq_true hnek⟩
  constructor
  · exact ⟨_, hybrid_vc_of_mem sim threshold sd vc hvc _ hsurv, hsurv⟩
  · rw [hybrid_semantic_eq sim threshold sd vc hvc]
    apply lookup_eq_none_of_not_mem_keys
    intro hmm
    obtain ⟨pe, hpe, hfst⟩ := List.mem_map.mp hmm
    obtain ⟨e0, he0, hse⟩ := List.mem_filterMap.mp hpe
    have hfst2 : pe.1 = e0.1 := semEntryOf_fst sim threshold e0 pe hse
    have he01 : e0.1 = path := by rw [← hfst2, hfst]
    obtain ⟨o, n, hspo⟩ := semEntryOf_some_gate sim threshold e0 pe hse
    have hpe0 : (path, e0.2) ∈ vc := by
      have hsplit : (e0.1, e0.2) = e0 := rfl
      rw [he01] at hsplit
      rw [hsplit]
      exact he0
    have hdet : e0.2 = detail := value_eq_of_nodupKeys hnd hpe0 hmem
    rw [hdet, hsp] at hspo
    cases hspo

theorem stringPair_eq_none_of_not_str (d : ValueChangeDetail)
    (h : (∀ s, d.old_value ≠ some (JsonValue.str s)) ∨
         (∀ s, d.new_value ≠ some (JsonValue.str s))) :
    stringPair d = none := by
  unfold stringPair
  rcases h with h | h
  · cases hov : d.old_value with
    | none => rfl
    | some jv =>
      cases jv with
      | str s => exact absurd hov (h s)
      | obj l => rfl
      | arr l => rfl
      | num q => rfl
      | bool b => rfl
      | null => rfl
  · cases hov : d.old_value with
    | none => rfl
    | some jv =>
      cases jv with
      | str s =>
        cases hnv : d.new_value with
        | none => rfl
        | some jv2 =>
          cases jv2 with
          | str s2 => exact absurd hnv (h s2)
          | obj l => rfl
          | arr l => rfl
          | num q => rfl
          | bool b => rfl
          | null => rfl
      | obj l => rfl
      | arr l => rfl
      | num q => rfl
      | bool b => rfl
      | null => rfl

theorem embeddingCalls_cons_none (e : String × ValueChangeDetail)
    (l : List (String × ValueChangeDetail)) (h : stringPair e.2 = none) :
    embeddingCalls (e :: l) = embeddingCalls l := by
  unfold embeddingCalls
  rw [List.filterMap_cons, h]

theorem embeddingCalls_cons_some (e : String × ValueChangeDetail)
    (l : List (String × ValueChangeDetail)) (pr : String × String)
    (h : stringPair e.2 = some pr) :
    embeddingCalls (e :: l) = pr :: embeddingCalls l := by
  unfold embeddingCalls
  rw [List.filterMap_cons, h]

theorem embeddingCalls_erase_of_gate_fail
    (vc : List (String × ValueChangeDetail)) (path : String)
    (detail : ValueChangeDetail) (hnd : (vc.map Prod.fst).Nodup)
    (hmem : (path, detail) ∈ vc) (hsp : stringPair detail = none) :
    embeddingCalls (vc.filter fun x => decide (x.1 ≠ path)) = embeddingCalls vc := by
  induction vc with
  | nil => cases hmem
  | cons hd rest ih =>
    obtain ⟨q, d⟩ := hd
    simp only [List.map_cons, List.nodup_cons] at hnd
    rcases List.mem_cons.mp hmem with heq | hmem2
    · injection heq with h1 h2
      subst h1
      subst h2
      have hfr : rest.filter (fun x => decide (x.1 ≠ path)) = rest := by
        apply List.filter_eq_self.mpr
        intro a ha
        apply decide_eq_true
        intro hh
        exact hnd.1 (by rw [← hh]; exact List.mem_map.mpr ⟨a, ha, rfl⟩)
      rw [List.filter_cons_of_neg (by simp), hfr,
        embeddingCalls_cons_none (path, detail) rest hsp]
    · have hq : q ≠ path := by
        intro hh
        subst hh
        exact hnd.1 (List.mem_map.mpr ⟨(q, detail), hmem2, rfl⟩)
      rw [List.filter_cons_of_pos (by simp [hq])]
      cases hspd : stringPair d with
      | none =>
        rw [embeddingCalls_cons_none (q, d) (rest.filter fun x => decide (x.1 ≠ path)) hspd,
          embeddingCalls_cons_none (q, d) rest hspd]
        exact ih hnd.2 hmem2
      | some pr =>
        rw [embeddingCalls_cons_some (q, d) (rest.filter fun x => decide (x.1 ≠ path)) pr hspd,
          embeddingCalls_cons_some (q, d) rest pr hspd,
          ih hnd.2 hmem2]

/-- Claim C1: a values-changed entry whose old and new values are both strings
with similarity at or above the threshold is removed from the values-changed
category of the returned structural diff, and the semantic diff maps its path
to an Equivalent record holding the computed similarity and the original old
and new values. -/
theorem C1_equivalent_reclassified (sim : String → String → ℚ) (threshold : ℚ)
    (sd : StructuralDiff) (vc : List (String × ValueChangeDetail))
    (path : String) (detail : ValueChangeDetail) (oldV newV : String)
    (hvc : sd.values_changed = some vc) (hnd : (vc.map Prod.fst).Nodup)
    (hmem : (path, detail) ∈ vc)
    (hold : detail.old_value = some (JsonValue.str oldV))
    (hnew : detail.new_value = some (JsonValue.str newV))
    (hge : sim oldV newV ≥ threshold) :
    (∀ vc2, (hybrid_json_compare sim threshold sd).structural_diff.values_changed = some vc2 →
        path ∉ vc2.map Prod.fst)
    ∧ List.lookup path (hybrid_json_compare sim threshold sd).semantic_diff =
        some ⟨"Equivalent (semantically)", sim oldV newV, oldV, newV⟩ :=
  reconciled_equiv_case sim threshold sd vc path detail oldV newV hvc hnd hmem
    (by simp [stringPair, hold, hnew]) hge

theorem C1_witness :
    (∀ vc2, (hybrid_json_compare (fun _ _ => (1 : ℚ)) 0
        ⟨some [("p", ⟨some (JsonValue.str "a"), some (JsonValue.str "b")⟩)],
          []⟩).structural_diff.values_changed = some vc2 →
        "p" ∉ vc2.map Prod.fst)
    ∧ List.lookup "p" (hybrid_json_compare (fun _ _ => (1 : ℚ)) 0
        ⟨some [("p", ⟨some (JsonValue.str "a"), some (JsonValue.str "b")⟩)],
          []⟩).semantic_diff =
        some ⟨"Equivalent (semantically)", 1, "a", "b"⟩ :=
  C1_equivalent_reclassified (fun _ _ => (1 : ℚ)) 0 _
    [("p", ⟨some (JsonValue.str "a"), some (JsonValue.str "b")⟩)]
    "p" ⟨some (JsonValue.str "a"), some (JsonValue.str "b")⟩ "a" "b"
    rfl (by simp) (by simp) rfl rfl (by norm_num)

/-- Claim C2: a values-changed entry whose old and new values are both strings
with similarity below the threshold is recorded in the semantic diff as
Changed with the computed similarity and the original values, and the entry
also remains, unchanged, in the values-changed category of the returned
structural diff. -/
theorem C2_changed_kept_in_both (sim : String → String → ℚ) (threshold : ℚ)
    (sd : StructuralDiff) (vc : List (String × ValueChangeDetail))
    (path : String) (detail : ValueChangeDetail) (oldV newV : String)
    (hvc : sd.values_changed = some vc) (hnd : (vc.map Prod.fst).Nodup)
    (hmem : (path, detail) ∈ vc)
    (hold : detail.old_value = some (JsonValue.str oldV))
    (hnew : detail.new_value = some (JsonValue.str newV))
    (hlt : sim oldV newV < threshold) :
    (∃ vc2, (hybrid_json_compare sim threshold sd).structural_diff.values_changed = some vc2
        ∧ (path, detail) ∈ vc2)
    ∧ List.lookup path (hybrid_json_compare sim threshold sd).semantic_diff =
        some ⟨"Changed (semantically different)", sim oldV newV, oldV, newV⟩ :=
  reconciled_changed_case sim threshold sd vc path detail oldV newV hvc hnd hmem
    (by simp [stringPair, hold, hnew]) (not_le.mpr hlt)

theorem C2_witness :
    (∃ vc2, (hybrid_json_compare (fun _ _ => (0 : ℚ)) 1
        ⟨some [("p", ⟨some (JsonValue.str "a"), some (JsonValue.str "b")⟩)],
          []⟩).structural_diff.values_changed = some vc2
        ∧ ("p", (⟨some (JsonValue.str "a"), some (JsonValue.str "b")⟩ : ValueChangeDetail)) ∈ vc2)
    ∧ List.lookup "p" (hybrid_json_compare (fun _ _ => (0 : ℚ)) 1
        ⟨some [("p", ⟨some (JsonValue.str "a"), some (JsonValue.str "b")⟩)],
          []⟩).semantic_diff =
        some ⟨"Changed (semantically different)", 0, "a", "b"⟩ :=
  C2_changed_kept_in_both (fun _ _ => (0 : ℚ)) 1 _
    [("p", ⟨some (JsonValue.str "a"), some (JsonValue.str "b")⟩)]
    "p" ⟨some (JsonValue.str "a"), some (JsonValue.str "b")⟩ "a" "b"
    rfl (by simp) (by simp) rfl rfl (by norm_num)

/-- Claim C5: if the values-changed dict is empty once the loop is done, the
category key is deleted from the returned structural diff; the returned
structural diff never carries values_changed as an empty mapping. -/
theorem C5_empty_values_changed_removed (sim : String → String → ℚ)
    (threshold : ℚ) (sd : StructuralDiff)
    (vc : List (String × ValueChangeDetail))
    (hvc : sd.values_changed = some vc) :
    ((reconcileLoop sim threshold vc vc []).1 = [] →
      (hybrid_json_compare sim threshold sd).structural_diff.values_changed = none)
    ∧ (hybrid_json_compare sim threshold sd).structural_diff.values_changed ≠ some [] := by
  constructor
  · intro hemp
    rw [reconcileLoop_fst] at hemp
    rw [hybrid_json_compare_eq sim threshold sd vc hvc]
    rw [hemp]
    rfl
  · intro hsome
    rw [hybrid_json_compare_eq sim threshold sd vc hvc] at hsome
    by_cases hfe : (vc.filter fun x => decide (x.1 ∉ equivKeys sim threshold vc)).isEmpty = true
    · rw [if_pos hfe] at hsome
      simp at hsome
    · rw [if_neg hfe] at hsome
      simp only at hsome
      injection hsome with h
      rw [h] at hfe
      exact hfe rfl

theorem C5_witness :
    ((reconcileLoop (fun _ _ => (1 : ℚ)) 0
        [("p", ⟨some (JsonValue.str "a"), some (JsonValue.str "b")⟩)]
        [("p", ⟨some (JsonValue.str "a"), some (JsonValue.str "b")⟩)] []).1 = [] →
      (hybrid_json_compare (fun _ _ => (1 : ℚ)) 0
        ⟨some [("p", ⟨some (JsonValue.str "a"), some (JsonValue.str "b")⟩)],
          []⟩).structural_diff.values_changed = none)
    ∧ (hybrid_json_compare (fun _ _ => (1 : ℚ)) 0
        ⟨some [("p", ⟨some (JsonValue.str "a"), some (JsonValue.str "b")⟩)],
          []⟩).structural_diff.values_changed ≠ some [] :=
  C5_empty_values_changed_removed (fun _ _ => (1 : ℚ)) 0 _
    [("p", ⟨some (JsonValue.str "a"), some (JsonValue.str "b")⟩)] rfl

/-- Claim C6: reconciling a JSON value with itself yields an empty structural
diff and an empty semantic diff, given that the structural-diff collaborator
reports no difference between a value and itself (the contract of DeepDiff,
which is external to this repository). -/
theorem C6_self_reconcile_empty (diffFn : JsonValue → JsonValue → StructuralDiff)
    (sim : String → String → ℚ) (threshold : ℚ) (a : JsonValue)
    (hdiff : diffFn a a = emptyStructuralDiff) :
    (reconcile diffFn sim threshold a a).structural_diff = emptyStructuralDiff
    ∧ (reconcile diffFn sim threshold a a).semantic_diff = [] := by
  unfold reconcile
  rw [hdiff]
  exact ⟨rfl, rfl⟩

theorem C6_witness :
    (reconcile (fun _ _ => emptyStructuralDiff) (fun _ _ => (0 : ℚ)) 1
        JsonValue.null JsonValue.null).structural_diff = emptyStructuralDiff
    ∧ (reconcile (fun _ _ => emptyStructuralDiff) (fun _ _ => (0 : ℚ)) 1
        JsonValue.null JsonValue.null).semantic_diff = [] :=
  C6_self_reconcile_empty (fun _ _ => emptyStructuralDiff) (fun _ _ => (0 : ℚ)) 1
    JsonValue.null rfl

/-- Claim C7: with a fixed deterministic embedding collaborator (two
invocations observing the same similarity for every string pair), reconcile
applied twice to the same inputs produces identical structural and semantic
diffs. -/
theorem C7_deterministic (diffFn : JsonValue → JsonValue → StructuralDiff)
    (sim1 sim2 : String → String → ℚ) (threshold : ℚ) (a b : JsonValue)
    (hsim : ∀ s u, sim1 s u = sim2 s u) :
    (reconcile diffFn sim1 threshold a b).structural_diff =
      (reconcile diffFn sim2 threshold a b).structural_diff
    ∧ (reconcile diffFn sim1 threshold a b).semantic_diff =
      (reconcile diffFn sim2 threshold a b).semantic_diff := by
  have h : sim1 = sim2 := funext fun s => funext fun u => hsim s u
  rw [h]
  exact ⟨rfl, rfl⟩

theorem C7_witness :
    (reconcile (fun _ _ => emptyStructuralDiff) (fun _ _ => (0 : ℚ)) 1
        JsonValue.null JsonValue.null).structural_diff =
      (reconcile (fun _ _ => emptyStructuralDiff) (fun _ _ => (0 : ℚ)) 1
        JsonValue.null JsonValue.null).structural_diff
    ∧ (reconcile (fun _ _ => emptyStructuralDiff) (fun _ _ => (0 : ℚ)) 1
        JsonValue.null JsonValue.null).semantic_diff =
      (reconcile (fun _ _ => emptyStructuralDiff) (fun _ _ => (0 : ℚ)) 1
        JsonValue.null JsonValue.null).semantic_diff :=
  C7_deterministic (fun _ _ => emptyStructuralDiff) (fun _ _ => (0 : ℚ))
    (fun _ _ => (0 : ℚ)) 1 JsonValue.null JsonValue.null (fun _ _ => rfl)

theorem stringPair_eq_some_elim (d : ValueChangeDetail) (o n : String)
    (h : stringPair d = some (o, n)) :
    d.old_value = some (JsonValue.str o) ∧ d.new_value = some (JsonValue.str n) := by
  unfold stringPair at h
  split at h
  · injection h with h2
    injection h2 with h3 h4
    subst h3
    subst h4
    constructor <;> assumption
  · cases h

/-- Claim C4: a values-changed entry whose old or new value is not a string
is skipped: no embedding is computed for it (the list of string pairs handed
to the embedding model is unchanged when the entry is deleted), no semantic
entry is created for its path, and the entry remains unchanged in the
values-changed category of the returned structural diff. -/
theorem C4_nonstring_skipped (sim : String → String → ℚ) (threshold : ℚ)
    (sd : StructuralDiff) (vc : List (String × ValueChangeDetail))
    (path : String) (detail : ValueChangeDetail)
    (hvc : sd.values_changed = some vc) (hnd : (vc.map Prod.fst).Nodup)
    (hmem : (path, detail) ∈ vc)
    (hns : (∀ s, detail.old_value ≠ some (JsonValue.str s)) ∨
           (∀ s, detail.new_value ≠ some (JsonValue.str s))) :
    (∃ vc2, (hybrid_json_compare sim threshold sd).structural_diff.values_changed = some vc2
        ∧ (path, detail) ∈ vc2)
    ∧ List.lookup path (hybrid_json_compare sim threshold sd).semantic_diff = none
    ∧ embeddingCalls (vc.filter fun x => decide (x.1 ≠ path)) = embeddingCalls vc := by
  have hsp := stringPair_eq_none_of_not_str detail hns
  obtain ⟨h1, h2⟩ :=
    reconciled_nonstring_case sim threshold sd vc path detail hvc hnd hmem hsp
  exact ⟨h1, h2, embeddingCalls_erase_of_gate_fail vc path detail hnd hmem hsp⟩

theorem C4_witness :
    (∃ vc2, (hybrid_json_compare (fun _ _ => (0 : ℚ)) 1
        ⟨some [("p", ⟨some (JsonValue.num 1), some (JsonValue.num 2)⟩)],
          []⟩).structural_diff.values_changed = some vc2
        ∧ ("p", (⟨some (JsonValue.num 1), some (JsonValue.num 2)⟩ : ValueChangeDetail)) ∈ vc2)
    ∧ List.lookup "p" (hybrid_json_compare (fun _ _ => (0 : ℚ)) 1
        ⟨some [("p", ⟨some (JsonValue.num 1), some (JsonValue.num 2)⟩)],
          []⟩).semantic_diff = none
    ∧ embeddingCalls
        ([("p", (⟨some (JsonValue.num 1), some (JsonValue.num 2)⟩ : ValueChangeDetail))].filter
          fun x => decide (x.1 ≠ "p")) =
      embeddingCalls [("p", ⟨some (JsonValue.num 1), some (JsonValue.num 2)⟩)] :=
  C4_nonstring_skipped (fun _ _ => (0 : ℚ)) 1 _
    [("p", ⟨some (JsonValue.num 1), some (JsonValue.num 2)⟩)]
    "p" ⟨some (JsonValue.num 1), some (JsonValue.num 2)⟩
    rfl (by simp) (by simp)
    (Or.inl (by intro s h; simp at h))

/-- Claim C3 as frozen is refuted at this input: with one changed string pair
of similarity 0 and threshold 1, the path stays in the values-changed category
of the returned structural diff AND is simultaneously present in the semantic
diff, contradicting the claim that a path is never present in both. -/
theorem C3_counterexample :
    "p" ∈ (((hybrid_json_compare (fun _ _ => (0 : ℚ)) 1
        ⟨some [("p", ⟨some (JsonValue.str "a"), some (JsonValue.str "b")⟩)],
          []⟩).structural_diff.values_changed.getD []).map Prod.fst)
    ∧ "p" ∈ ((hybrid_json_compare (fun _ _ => (0 : ℚ)) 1
        ⟨some [("p", ⟨some (JsonValue.str "a"), some (JsonValue.str "b")⟩)],
          []⟩).semantic_diff.map Prod.fst) := by
  constructor <;> norm_num [hybrid_json_compare, reconcileLoop, stringPair]

/-- Claim C3, amended: after reconciliation every path of the original
values-changed category is in exactly one of three states: only in the
structural diff with no semantic entry (gate-failing entries), in BOTH the
structural values-changed and the semantic diff with status Changed
(sub-threshold string pairs), or only in the semantic diff with status
Equivalent; and every path of the semantic diff originates from a
values-changed entry whose old and new values are both strings. -/
theorem C3_partition_amended (sim : String → String → ℚ) (threshold : ℚ)
    (sd : StructuralDiff) (vc : List (String × ValueChangeDetail))
    (hvc : sd.values_changed = some vc) (hnd : (vc.map Prod.fst).Nodup) :
    (∀ path detail, (path, detail) ∈ vc →
      (path ∈ (((hybrid_json_compare sim threshold sd).structural_diff.values_changed.getD
            []).map Prod.fst)
          ∧ List.lookup path (hybrid_json_compare sim threshold sd).semantic_diff = none)
      ∨ (∃ en, path ∈ (((hybrid_json_compare sim threshold
              sd).structural_diff.values_changed.getD []).map Prod.fst)
          ∧ List.lookup path (hybrid_json_compare sim threshold sd).semantic_diff = some en
          ∧ en.status = "Changed (semantically different)")
      ∨ (∃ en, path ∉ (((hybrid_json_compare sim threshold
              sd).structural_diff.values_changed.getD []).map Prod.fst)
          ∧ List.lookup path (hybrid_json_compare sim threshold sd).semantic_diff = some en
          ∧ en.status = "Equivalent (semantically)"))
    ∧ (∀ path en, (path, en) ∈ (hybrid_json_compare sim threshold sd).semantic_diff →
        ∃ detail oldV newV, (path, detail) ∈ vc
          ∧ detail.old_value = some (JsonValue.str oldV)
          ∧ detail.new_value = some (JsonValue.str newV)) := by
  constructor
  · intro path detail hmem
    cases hsp : stringPair detail with
    | none =>
      left
      obtain ⟨⟨vc2, hvc2, hmem2⟩, hlk⟩ :=
        reconciled_nonstring_case sim threshold sd vc path detail hvc hnd hmem hsp
      refine ⟨?_, hlk⟩
      rw [hvc2]
      simp only [Option.getD_some]
      exact List.mem_map.mpr ⟨(path, detail), hmem2, rfl⟩
    | some pr =>
      obtain ⟨oldV, newV⟩ := pr
      by_cases hge : sim oldV newV ≥ threshold
      · right; right
        obtain ⟨hrm, hlk⟩ :=
          reconciled_equiv_case sim threshold sd vc path detail oldV newV hvc hnd hmem hsp hge
        refine ⟨⟨"Equivalent (semantically)", sim oldV newV, oldV, newV⟩, ?_, hlk, rfl⟩
        cases hvcc : (hybrid_json_compare sim threshold sd).structural_diff.values_changed with
        | none => simp
        | some vc2 => simpa using hrm vc2 hvcc
      · right; left
        obtain ⟨⟨vc2, hvc2, hmem2⟩, hlk⟩ :=
          reconciled_changed_case sim threshold sd vc path detail oldV newV hvc hnd hmem hsp hge
        refine ⟨⟨"Changed (semantically different)", sim oldV newV, oldV, newV⟩, ?_, hlk, rfl⟩
        rw [hvc2]
        simp only [Option.getD_some]
        exact List.mem_map.mpr ⟨(path, detail), hmem2, rfl⟩
  · intro path en hmemsem
    rw [hybrid_semantic_eq sim threshold sd vc hvc] at hmemsem
    obtain ⟨e0, he0, hse⟩ := List.mem_filterMap.mp hmemsem
    obtain ⟨o, n, hspo⟩ := semEntryOf_some_gate sim threshold e0 (path, en) hse
    have hfst : (path, en).1 = e0.1 := semEntryOf_fst sim threshold e0 (path, en) hse
    have hpe0 : (path, e0.2) ∈ vc := by
      have hsplit : (e0.1, e0.2) = e0 := rfl
      rw [← hfst] at hsplit
      rw [hsplit]
      exact he0
    obtain ⟨ho, hn⟩ := stringPair_eq_some_elim e0.2 o n hspo
    exact ⟨e0.2, o, n, hpe0, ho, hn⟩

theorem C3_witness :
    (∀ path detail,
      (path, detail) ∈
        [("p", (⟨some (JsonValue.str "a"), some (JsonValue.str "b")⟩ : ValueChangeDetail))] →
      (path ∈ (((hybrid_json_compare (fun _ _ => (0 : ℚ)) 1
            ⟨some [("p", ⟨some (JsonValue.str "a"), some (JsonValue.str "b")⟩)],
              []⟩).structural_diff.values_changed.getD []).map Prod.fst)
          ∧ List.lookup path (hybrid_json_compare (fun _ _ => (0 : ℚ)) 1
              ⟨some [("p", ⟨some (JsonValue.str "a"), some (JsonValue.str "b")⟩)],
                []⟩).semantic_diff = none)
      ∨ (∃ en, path ∈ (((hybrid_json_compare (fun _ _ => (0 : ℚ)) 1
              ⟨some [("p", ⟨some (JsonValue.str "a"), some (JsonValue.str "b")⟩)],
                []⟩).structural_diff.values_changed.getD []).map Prod.fst)
          ∧ List.lookup path (hybrid_json_compare (fun _ _ => (0 : ℚ)) 1
              ⟨some [("p", ⟨some (JsonValue.str "a"), some (JsonValue.str "b")⟩)],
                []⟩).semantic_diff = some en
          ∧ en.status = "Changed (semantically different)")
      ∨ (∃ en, path ∉ (((hybrid_json_compare (fun _ _ => (0 : ℚ)) 1
              ⟨some [("p", ⟨some (JsonValue.str "a"), some (JsonValue.str "b")⟩)],
                []⟩).structural_diff.values_changed.getD []).map Prod.fst)
          ∧ List.lookup path (hybrid_json_compare (fun _ _ => (0 : ℚ)) 1
              ⟨some [("p", ⟨some (JsonValue.str "a"), some (JsonValue.str "b")⟩)],
                []⟩).semantic_diff = some en
          ∧ en.status = "Equivalent (semantically)"))
    ∧ (∀ path en,
        (path, en) ∈ (hybrid_json_compare (fun _ _ => (0 : ℚ)) 1
          ⟨some [("p", ⟨some (JsonValue.str "a"), some (JsonValue.str "b")⟩)],
            []⟩).semantic_diff →
        ∃ detail oldV newV,
          (path, detail) ∈
            [("p", (⟨some (JsonValue.str "a"), some (JsonValue.str "b")⟩ : ValueChangeDetail))]
          ∧ detail.old_value = some (JsonValue.str oldV)
          ∧ detail.new_value = some (JsonValue.str newV)) :=
  C3_partition_amended (fun _ _ => (0 : ℚ)) 1 _
    [("p", ⟨some (JsonValue.str "a"), some (JsonValue.str "b")⟩)] rfl (by simp)

/-- Claim C8: the final content of the returned structural and semantic diffs
does not depend on the iteration order of the values-changed entries: for any
permutation of the entries, the category is present on one side exactly when
it is present on the other, the surviving values-changed entries are a
permutation of each other, the untouched categories agree, and the semantic
diffs are permutations of each other (equal as path-keyed mappings). -/
theorem C8_order_independence (sim : String → String → ℚ) (threshold : ℚ)
    (sd1 sd2 : StructuralDiff) (vc1 vc2 : List (String × ValueChangeDetail))
    (hvc1 : sd1.values_changed = some vc1) (hvc2 : sd2.values_changed = some vc2)
    (hperm : vc1.Perm vc2) (hother : sd1.otherCategories = sd2.otherCategories) :
    ((hybrid_json_compare sim threshold sd1).structural_diff.values_changed.isNone =
      (hybrid_json_compare sim threshold sd2).structural_diff.values_changed.isNone)
    ∧ ((hybrid_json_compare sim threshold sd1).structural_diff.values_changed.getD []).Perm
        ((hybrid_json_compare sim threshold sd2).structural_diff.values_changed.getD [])
    ∧ ((hybrid_json_compare sim threshold sd1).structural_diff.otherCategories =
        (hybrid_json_compare sim threshold sd2).structural_diff.otherCategories)
    ∧ (hybrid_json_compare sim threshold sd1).semantic_diff.Perm
        (hybrid_json_compare sim threshold sd2).semantic_diff := by
  have hek : ∀ x : String × ValueChangeDetail,
      decide (x.1 ∉ equivKeys sim threshold vc1) =
        decide (x.1 ∉ equivKeys sim threshold vc2) := by
    intro x
    have hkp : (equivKeys sim threshold vc1).Perm (equivKeys sim threshold vc2) :=
      (hperm.filter (isEquivalentEntry sim threshold)).map Prod.fst
    exact decide_eq_decide.mpr (not_congr hkp.mem_iff)
  have hfp : (vc1.filter fun x => decide (x.1 ∉ equivKeys sim threshold vc1)).Perm
      (vc2.filter fun x => decide (x.1 ∉ equivKeys sim threshold vc2)) := by
    have h1 : vc1.filter (fun x => decide (x.1 ∉ equivKeys sim threshold vc1)) =
        vc1.filter (fun x => decide (x.1 ∉ equivKeys sim threshold vc2)) :=
      List.filter_congr (fun a _ => hek a)
    rw [h1]
    exact hperm.filter _
  have hsem : (vc1.filterMap (semEntryOf sim threshold)).Perm
      (vc2.filterMap (semEntryOf sim threshold)) := hperm.filterMap _
  have hemp : (vc1.filter fun x => decide (x.1 ∉ equivKeys sim threshold vc1)).isEmpty =
      (vc2.filter fun x => decide (x.1 ∉ equivKeys sim threshold vc2)).isEmpty := by
    cases hfe1 : vc1.filter fun x => decide (x.1 ∉ equivKeys sim threshold vc1) with
    | nil =>
      have h2 : vc2.filter (fun x => decide (x.1 ∉ equivKeys sim threshold vc2)) = [] := by
        apply List.Perm.eq_nil
        rw [← hfe1]
        exact hfp.symm
      rw [h2]
    | cons a l =>
      cases hfe2 : vc2.filter fun x => decide (x.1 ∉ equivKeys sim threshold vc2) with
      | nil =>
        have h1 : vc1.filter (fun x => decide (x.1 ∉ equivKeys sim threshold vc1)) = [] := by
          apply List.Perm.eq_nil
          rw [← hfe2]
          exact hfp
        rw [h1] at hfe1
        cases hfe1
      | cons b m => rfl
  rw [hybrid_json_compare_eq sim threshold sd1 vc1 hvc1,
    hybrid_json_compare_eq sim threshold sd2 vc2 hvc2]
  by_cases hf2 : (vc2.filter fun x => decide (x.1 ∉ equivKeys sim threshold vc2)).isEmpty = true
  · rw [if_pos hf2, if_pos (hemp.trans hf2)]
    exact ⟨rfl, List.Perm.refl [], hother, hsem⟩
  · rw [if_neg hf2, if_neg (fun hh => hf2 (hemp.symm.trans hh))]
    exact ⟨rfl, hfp, hother, hsem⟩

theorem C8_witness :
    ((hybrid_json_compare (fun _ _ => (0 : ℚ)) 1
        ⟨some [("p", ⟨some (JsonValue.str "a"), some (JsonValue.str "b")⟩),
               ("q", ⟨some (JsonValue.str "c"), some (JsonValue.str "d")⟩)],
          []⟩).structural_diff.values_changed.isNone =
      (hybrid_json_compare (fun _ _ => (0 : ℚ)) 1
        ⟨some [("q", ⟨some (JsonValue.str "c"), some (JsonValue.str "d")⟩),
               ("p", ⟨some (JsonValue.str "a"), some (JsonValue.str "b")⟩)],
          []⟩).structural_diff.values_changed.isNone)
    ∧ ((hybrid_json_compare (fun _ _ => (0 : ℚ)) 1
        ⟨some [("p", ⟨some (JsonValue.str "a"), some (JsonValue.str "b")⟩),
               ("q", ⟨some (JsonValue.str "c"), some (JsonValue.str "d")⟩)],
          []⟩).structural_diff.values_changed.getD []).Perm
        ((hybrid_json_compare (fun _ _ => (0 : ℚ)) 1
          ⟨some [("q", ⟨some (JsonValue.str "c"), some (JsonValue.str "d")⟩),
                 ("p", ⟨some (JsonValue.str "a"), some (JsonValue.str "b")⟩)],
            []⟩).structural_diff.values_changed.getD [])
    ∧ ((hybrid_json_compare (fun _ _ => (0 : ℚ)) 1
        ⟨some [("p", ⟨some (JsonValue.str "a"), some (JsonValue.str "b")⟩),
               ("q", ⟨some (JsonValue.str "c"), some (JsonValue.str "d")⟩)],
          []⟩).structural_diff.otherCategories =
      (hybrid_json_compare (fun _ _ => (0 : ℚ)) 1
        ⟨some [("q", ⟨some (JsonValue.str "c"), some (JsonValue.str "d")⟩),
               ("p", ⟨some (JsonValue.str "a"), some (JsonValue.str "b")⟩)],
          []⟩).structural_diff.otherCategories)
    ∧ (hybrid_json_compare (fun _ _ => (0 : ℚ)) 1
        ⟨some [("p", ⟨some (JsonValue.str "a"), some (JsonValue.str "b")⟩),
               ("q", ⟨some (JsonValue.str "c"), some (JsonValue.str "d")⟩)],
          []⟩).semantic_diff.Perm
        (hybrid_json_compare (fun _ _ => (0 : ℚ)) 1
          ⟨some [("q", ⟨some (JsonValue.str "c"), some (JsonValue.str "d")⟩),
                 ("p", ⟨some (JsonValue.str "a"), some (JsonValue.str "b")⟩)],
            []⟩).semantic_diff :=
  C8_order_independence (fun _ _ => (0 : ℚ)) 1 _ _
    [("p", ⟨some (JsonValue.str "a"), some (JsonValue.str "b")⟩),
     ("q", ⟨some (JsonValue.str "c"), some (JsonValue.str "d")⟩)]
    [("q", ⟨some (JsonValue.str "c"), some (JsonValue.str "d")⟩),
     ("p", ⟨some (JsonValue.str "a"), some (JsonValue.str "b")⟩)]
    rfl rfl
    (List.Perm.swap _ _ _)
    rfl

theorem reconcileLoopE_ok {ε : Type} (sim : String → String → ℚ) (threshold : ℚ)
    (entries vc : List (String × ValueChangeDetail))
    (sem : List (String × SemanticEntry)) :
    reconcileLoopE (fun a b => (Except.ok (sim a b) : Except ε ℚ)) threshold entries vc sem =
      Except.ok (reconcileLoop sim threshold entries vc sem) := by
  induction entries generalizing vc sem with
  | nil => rfl
  | cons hd rest ih =>
    obtain ⟨path, changes⟩ := hd
    cases hsp : stringPair changes with
    | none => simp [reconcileLoopE, reconcileLoop, hsp, ih]
    | some pr =>
      obtain ⟨oldV, newV⟩ := pr
      by_cases hge : sim oldV newV ≥ threshold
      · simp [reconcileLoopE, reconcileLoop, hsp, hge, ih]
      · simp [reconcileLoopE, reconcileLoop, hsp, hge, ih]

theorem hybrid_json_compare_E_ok {ε : Type} (sim : String → String → ℚ)
    (threshold : ℚ) (sd : StructuralDiff) :
    hybrid_json_compare_E (fun a b => (Except.ok (sim a b) : Except ε ℚ)) threshold sd =
      Except.ok (hybrid_json_compare sim threshold sd) := by
  unfold hybrid_json_compare_E hybrid_json_compare
  cases h : sd.values_changed with
  | none => rfl
  | some vc => simp [reconcileLoopE_ok]

theorem reconcileLoopE_error {ε : Type} (simE : String → String → Except ε ℚ)
    (threshold : ℚ) (entries vc : List (String × ValueChangeDetail))
    (sem : List (String × SemanticEntry)) (path : String)
    (detail : ValueChangeDetail) (oldV newV : String) (e : ε)
    (hmem : (path, detail) ∈ entries)
    (hsp : stringPair detail = some (oldV, newV))
    (hfail : simE oldV newV = Except.error e) :
    ∃ e2, reconcileLoopE simE threshold entries vc sem = Except.error e2 := by
  revert hmem
  induction entries generalizing vc sem with
  | nil => intro hmem; cases hmem
  | cons hd rest ih =>
    intro hmem
    obtain ⟨q, ch⟩ := hd
    cases hspc : stringPair ch with
    | none =>
      have hmem2 : (path, detail) ∈ rest := by
        rcases List.mem_cons.mp hmem with heq | h2
        · injection heq with h1 h2x
          subst h1
          subst h2x
          rw [hspc] at hsp
          cases hsp
        · exact h2
      simpa [reconcileLoopE, hspc] using ih vc sem hmem2
    | some pr =>
      obtain ⟨o2, n2⟩ := pr
      cases hres : simE o2 n2 with
      | error e2 => exact ⟨e2, by simp [reconcileLoopE, hspc, hres]⟩
      | ok s =>
        have hmem2 : (path, detail) ∈ rest := by
          rcases List.mem_cons.mp hmem with heq | h2
          · injection heq with h1 h2x
            subst h1
            subst h2x
            rw [hspc] at hsp
            injection hsp with hpair
            injection hpair with ho hn
            subst ho
            subst hn
            rw [hres] at hfail
            cases hfail
          · exact h2
        by_cases hge : s ≥ threshold
        · simpa [reconcileLoopE, hspc, hres, hge] using ih _ _ hmem2
        · simpa [reconcileLoopE, hspc, hres, hge] using ih _ _ hmem2

/-- Claim C9: if the embedding collaborator raises on a string pair of an
eligible values-changed entry, the error propagates out of the comparison
uncaught: the whole invocation evaluates to that error and no result, in
particular no partial structural or semantic diff, is produced. -/
theorem C9_embedding_failure_aborts {ε : Type} (simE : String → String → Except ε ℚ)
    (threshold : ℚ) (sd : StructuralDiff) (vc : List (String × ValueChangeDetail))
    (path : String) (detail : ValueChangeDetail) (oldV newV : String) (e : ε)
    (hvc : sd.values_changed = some vc) (hmem : (path, detail) ∈ vc)
    (hold : detail.old_value = some (JsonValue.str oldV))
    (hnew : detail.new_value = some (JsonValue.str newV))
    (hfail : simE oldV newV = Except.error e) :
    ∃ e2, hybrid_json_compare_E simE threshold sd = Except.error e2 := by
  obtain ⟨e2, he2⟩ := reconcileLoopE_error simE threshold vc vc [] path detail oldV newV e
    hmem (by simp [stringPair, hold, hnew]) hfail
  refine ⟨e2, ?_⟩
  unfold hybrid_json_compare_E
  rw [hvc]
  simp [he2]

theorem C9_witness :
    ∃ e2, hybrid_json_compare_E
        (fun _ _ => (Except.error () : Except Unit ℚ)) 1
        ⟨some [("p", ⟨some (JsonValue.str "a"), some (JsonValue.str "b")⟩)], []⟩ =
      Except.error e2 :=
  C9_embedding_failure_aborts (fun _ _ => (Except.error () : Except Unit ℚ)) 1 _
    [("p", ⟨some (JsonValue.str "a"), some (JsonValue.str "b")⟩)]
    "p" ⟨some (JsonValue.str "a"), some (JsonValue.str "b")⟩ "a" "b" ()
    rfl (by simp) rfl rfl rfl

/-- Claim C10: a values-changed entry lacking the old_value or new_value key
is harmless: the missing key reads as None, which fails the both-strings
gate, so the entry stays unchanged in the structural diff, no semantic entry
is created, no embedding is computed for it, and the whole comparison still
returns normally (the exception-aware run returns ok whenever the embedding
collaborator itself does not raise). -/
theorem C10_missing_field_safe (sim : String → String → ℚ) (threshold : ℚ)
    (sd : StructuralDiff) (vc : List (String × ValueChangeDetail))
    (path : String) (detail : ValueChangeDetail)
    (hvc : sd.values_changed = some vc) (hnd : (vc.map Prod.fst).Nodup)
    (hmem : (path, detail) ∈ vc)
    (hmiss : detail.old_value = none ∨ detail.new_value = none) :
    (∃ vc2, (hybrid_json_compare sim threshold sd).structural_diff.values_changed = some vc2
        ∧ (path, detail) ∈ vc2)
    ∧ List.lookup path (hybrid_json_compare sim threshold sd).semantic_diff = none
    ∧ embeddingCalls (vc.filter fun x => decide (x.1 ≠ path)) = embeddingCalls vc
    ∧ hybrid_json_compare_E (fun a b => (Except.ok (sim a b) : Except Unit ℚ)) threshold sd =
        Except.ok (hybrid_json_compare sim threshold sd) := by
  have hsp := stringPair_eq_none_of_missing detail hmiss
  obtain ⟨h1, h2⟩ :=
    reconciled_nonstring_case sim threshold sd vc path detail hvc hnd hmem hsp
  exact ⟨h1, h2, embeddingCalls_erase_of_gate_fail vc path detail hnd hmem hsp,
    hybrid_json_compare_E_ok sim threshold sd⟩

theorem C10_witness :
    (∃ vc2, (hybrid_json_compare (fun _ _ => (0 : ℚ)) 1
        ⟨some [("p", ⟨none, some (JsonValue.str "b")⟩)],
          []⟩).structural_diff.values_changed = some vc2
        ∧ ("p", (⟨none, some (JsonValue.str "b")⟩ : ValueChangeDetail)) ∈ vc2)
    ∧ List.lookup "p" (hybrid_json_compare (fun _ _ => (0 : ℚ)) 1
        ⟨some [("p", ⟨none, some (JsonValue.str "b")⟩)],
          []⟩).semantic_diff = none
    ∧ embeddingCalls
        ([("p", (⟨none, some (JsonValue.str "b")⟩ : ValueChangeDetail))].filter
          fun x => decide (x.1 ≠ "p")) =
      embeddingCalls [("p", ⟨none, some (JsonValue.str "b")⟩)]
    ∧ hybrid_json_compare_E (fun a b => (Except.ok ((fun _ _ => (0 : ℚ)) a b) : Except Unit ℚ)) 1
        ⟨some [("p", ⟨none, some (JsonValue.str "b")⟩)], []⟩ =
      Except.ok (hybrid_json_compare (fun _ _ => (0 : ℚ)) 1
        ⟨some [("p", ⟨none, some (JsonValue.str "b")⟩)], []⟩) :=
  C10_missing_field_safe (fun _ _ => (0 : ℚ)) 1 _
    [("p", ⟨none, some (JsonValue.str "b")⟩)]
    "p" ⟨none, some (JsonValue.str "b")⟩
    rfl (by simp) (by simp) (Or.inl rfl)
